import Mathlib

/-!
Verification development for the volt_parser repository.

The Python sources under `src/` are shallowly embedded as executable Lean
definitions: stateful code (the URL cache, the network call counter of the
retried fetcher) is modeled by explicit state passing, fallible code returns
`Except`, and the remote collaborators (Wikidata, the Wikipedia summary
endpoint, the Anthropic client) are modeled as oracle parameters giving the
awaited outcome of each call.  JSON numbers are modeled as integers (no float
literals are exercised by any claim).
-/

namespace Volt

/-- JSON-compatible values, as produced by `json.loads` / `resp.json()`.
Numbers are modeled as integers. -/
inductive JSON where
  | null
  | bool (b : Bool)
  | num (n : Int)
  | str (s : String)
  | arr (elems : List JSON)
  | obj (fields : List (String × JSON))

/-- First-match association lookup on object fields (parsed Python dicts keep
at most one entry per key, see `objInsert`). -/
def assocFind (fs : List (String × JSON)) (k : String) : Option JSON :=
  match fs with
  | [] => none
  | (k2, v) :: rest => if k2 = k then some v else assocFind rest k

/-- `dict.get(k)` on a JSON object; `None` on a missing key or a non-object. -/
def jsonGet (j : JSON) (k : String) : Option JSON :=
  match j with
  | .obj fs => assocFind fs k
  | _ => none

/-- `dict.get(k, d)`. -/
def jsonGetD (j : JSON) (k : String) (d : JSON) : JSON := (jsonGet j k).getD d

/-- Insert-or-replace of a key in an object field list (Python dict update:
a later duplicate key wins). -/
def objInsert (fs : List (String × JSON)) (k : String) (v : JSON) :
    List (String × JSON) :=
  match fs with
  | [] => [(k, v)]
  | (k2, w) :: rest =>
    if k2 = k then (k, v) :: rest else (k2, w) :: objInsert rest k v

/-- Python `\s` / `str.strip` whitespace (space, tab, newline, CR, VT, FF). -/
def pyWsChar (c : Char) : Bool :=
  c = ' ' || c = '\t' || c = '\n' || c = '\r' || c = Char.ofNat 11 || c = Char.ofNat 12

/-- Python truthiness of a JSON-compatible value. -/
def pyTruthy : JSON → Bool
  | .null => false
  | .bool b => b
  | .num n => n != 0
  | .str s => s != ""
  | .arr xs => !xs.isEmpty
  | .obj fs => !fs.isEmpty

/-- `str.strip()`: trim Python whitespace at both ends. -/
def pyStrip (s : String) : String :=
  ⟨((s.data.dropWhile pyWsChar).reverse.dropWhile pyWsChar).reverse⟩

/-! ## cache.py — `Cache.get` / `Cache.set`

The sqlite store is modeled as an association list from keys to the stored
JSON values.  `Cache.get` runs `json.loads` on the stored text and returns the
resulting Python value, so a stored JSON `null` comes back as Python `None`:
the caller cannot distinguish it from a missing row. -/

/-- `Cache.get`: the value stored under `k`, with a stored `null`
indistinguishable from absence (`json.loads("null")` is `None`). -/
def cacheGet (c : List (String × JSON)) (k : String) : Option JSON :=
  match assocFind c k with
  | some .null => none
  | some v => some v
  | none => none

/-- `Cache.set`: `REPLACE INTO kv` — insert-or-replace under `k`. -/
def cacheSet (c : List (String × JSON)) (k : String) (v : JSON) :
    List (String × JSON) :=
  match c with
  | [] => [(k, v)]
  | (k2, w) :: rest =>
    if k2 = k then (k, v) :: rest else (k2, w) :: cacheSet rest k v

/-! ## enrichers.py — `_fetch_json` (cached HTTP GET with tenacity retry)

`@retry(stop=stop_after_attempt(3), wait=wait_exponential(1, 8),
        retry=retry_if_exception_type(EnrichmentError))`

The decorated body checks the cache, issues the GET, raises
`EnrichmentError` on a non-200 status and caches the decoded body on success.
tenacity retries an attempt only when it raised `EnrichmentError`; any other
exception (aiohttp transport errors, JSON decode errors) is re-raised at once.
After the third failed retryable attempt tenacity raises `RetryError`
(`reraise` is left at its default `False`).  `wait_exponential(1, 8)` sleeps
`min(1 * 2 ** (attempt - 1), 8)` after failed attempt `attempt`. -/

/-- Python exceptions surfaced by the embedded code. -/
inductive PyErr where
  | enrichmentErr
  | decodeErr
  | transportErr
  | retryErr
  | keyErr
  | indexErr
  deriving DecidableEq

/-- Outcome of one raw network attempt, indexed by the global call counter:
a decoded 200 body, a non-200 status, an undecodable body, or a transport
error/timeout. -/
inductive NetOutcome where
  | ok (v : JSON)
  | non200 (status : Nat)
  | badJson
  | transport

/-- Mutable context of the fetch layer: the URL cache, the number of network
calls issued so far, and the backoff sleeps performed so far. -/
structure FetchSt where
  cache : List (String × JSON)
  calls : Nat
  waits : List Nat

/-- `wait_exponential(1, 8)`: sleep after failed attempt `attempt`. -/
def tenacityWait (attempt : Nat) : Nat := min (2 ^ (attempt - 1)) 8

/-- One execution of the decorated `_fetch_json` body: cache probe, then a
network call on a miss, caching the decoded body of a 200 response. -/
def fetchAttempt (net : Nat → NetOutcome) (url : String) (s : FetchSt) :
    Except PyErr JSON × FetchSt :=
  match cacheGet s.cache url with
  | some v => (.ok v, s)
  | none =>
    match net s.calls with
    | .ok v => (.ok v, { s with calls := s.calls + 1, cache := cacheSet s.cache url v })
    | .non200 _ => (.error .enrichmentErr, { s with calls := s.calls + 1 })
    | .badJson => (.error .decodeErr, { s with calls := s.calls + 1 })
    | .transport => (.error .transportErr, { s with calls := s.calls + 1 })

/-- `_fetch_json` as seen by callers: tenacity's attempt loop, unrolled for
`stop_after_attempt(3)`.  An attempt that raised `EnrichmentError` is retried
after the exponential sleep; any other exception is re-raised immediately;
after the third failed retryable attempt tenacity raises `RetryError`. -/
def fetchJson (net : Nat → NetOutcome) (url : String) (s : FetchSt) :
    Except PyErr JSON × FetchSt :=
  match fetchAttempt net url s with
  | (.ok v, s1) => (.ok v, s1)
  | (.error .enrichmentErr, s1) =>
    let s1b := { s1 with waits := s1.waits ++ [tenacityWait 1] }
    match fetchAttempt net url s1b with
    | (.ok v, s2) => (.ok v, s2)
    | (.error .enrichmentErr, s2) =>
      let s2b := { s2 with waits := s2.waits ++ [tenacityWait 2] }
      match fetchAttempt net url s2b with
      | (.ok v, s3) => (.ok v, s3)
      | (.error .enrichmentErr, s3) => (.error .retryErr, s3)
      | (.error e, s3) => (.error e, s3)
    | (.error e, s2) => (.error e, s2)
  | (.error e, s1) => (.error e, s1)

/-- Discriminator: does a fetch result surface as a bare `EnrichmentError`?
(`_wiki_summary` catches only that, see claim C7.) -/
def surfacesEnrichmentErr : Except PyErr JSON → Bool
  | .error .enrichmentErr => true
  | _ => false

/-! ## A model of `json.loads`

Strict JSON parsing on character lists, fuel-indexed for termination.
Numbers are restricted to (optionally signed) integer literals; a fractional
or exponent part makes the parse fail — no claim exercises float values.
Duplicate object keys follow Python semantics: the last one wins. -/

/-- Skip JSON/Python whitespace. -/
def skipWs (cs : List Char) : List Char := cs.dropWhile pyWsChar

/-- Single-character string escapes accepted by `json.loads`. -/
def escSimple (e : Char) : Option Char :=
  if e = '"' then some '"'
  else if e = '\\' then some '\\'
  else if e = '/' then some '/'
  else if e = 'b' then some (Char.ofNat 8)
  else if e = 'f' then some (Char.ofNat 12)
  else if e = 'n' then some '\n'
  else if e = 'r' then some '\r'
  else if e = 't' then some '\t'
  else none

/-- Hex digit value. -/
def hexVal (c : Char) : Option Nat :=
  if '0' ≤ c ∧ c ≤ '9' then some (c.toNat - 48)
  else if 'a' ≤ c ∧ c ≤ 'f' then some (c.toNat - 87)
  else if 'A' ≤ c ∧ c ≤ 'F' then some (c.toNat - 55)
  else none

/-- Body of a JSON string after the opening quote: returns the decoded
content and the remainder after the closing quote.  Raw control characters
are rejected (`json.loads` default `strict=True`). -/
def parseStringBody : Nat → List Char → Option (List Char × List Char)
  | 0, _ => none
  | fuel + 1, cs =>
    match cs with
    | [] => none
    | '"' :: rest => some ([], rest)
    | '\\' :: 'u' :: h1 :: h2 :: h3 :: h4 :: rest =>
      match hexVal h1, hexVal h2, hexVal h3, hexVal h4 with
      | some a, some b, some c, some d =>
        (parseStringBody fuel rest).map
          (fun p => (Char.ofNat (((a * 16 + b) * 16 + c) * 16 + d) :: p.1, p.2))
      | _, _, _, _ => none
    | '\\' :: e :: rest =>
      match escSimple e with
      | some c => (parseStringBody fuel rest).map (fun p => (c :: p.1, p.2))
      | none => none
    | c :: rest =>
      if c.toNat < 32 then none
      else (parseStringBody fuel rest).map (fun p => (c :: p.1, p.2))

/-- Consume a run of decimal digits, accumulating their value. -/
def digitsGo : Nat → List Char → Nat × List Char
  | acc, c :: rest =>
    if c.isDigit then digitsGo (acc * 10 + (c.toNat - 48)) rest else (acc, c :: rest)
  | acc, [] => (acc, [])

/-- Integer literal: optional minus sign, one or more digits, not followed by
a fraction or exponent. -/
def parseIntLit (cs : List Char) : Option (Int × List Char) :=
  let (neg, cs2) := match cs with
    | '-' :: rest => (true, rest)
    | _ => (false, cs)
  match cs2 with
  | c :: _ =>
    if c.isDigit then
      let (n, rest) := digitsGo 0 cs2
      match rest with
      | d :: _ => if d = '.' || d = 'e' || d = 'E' then none
                  else some (if neg then -(n : Int) else (n : Int), rest)
      | [] => some (if neg then -(n : Int) else (n : Int), rest)
    else none
  | [] => none

mutual

/-- One JSON value (with leading whitespace), returning the remainder. -/
def parseVal : Nat → List Char → Option (JSON × List Char)
  | 0, _ => none
  | fuel + 1, cs =>
    match skipWs cs with
    | 'n' :: 'u' :: 'l' :: 'l' :: rest => some (.null, rest)
    | 't' :: 'r' :: 'u' :: 'e' :: rest => some (.bool true, rest)
    | 'f' :: 'a' :: 'l' :: 's' :: 'e' :: rest => some (.bool false, rest)
    | '"' :: rest =>
      (parseStringBody fuel rest).map (fun p => (.str ⟨p.1⟩, p.2))
    | '[' :: rest =>
      match skipWs rest with
      | ']' :: r2 => some (.arr [], r2)
      | _ => (parseElems fuel rest).map (fun p => (.arr p.1, p.2))
    | '\x7b' :: rest =>
      match skipWs rest with
      | '\x7d' :: r2 => some (.obj [], r2)
      | _ =>
        (parseMembers fuel rest).map
          (fun p => (.obj (p.1.foldl (fun acc kv => objInsert acc kv.1 kv.2) []), p.2))
    | other =>
      (parseIntLit other).map (fun p => (.num p.1, p.2))

/-- Comma-separated array elements followed by the closing bracket. -/
def parseElems : Nat → List Char → Option (List JSON × List Char)
  | 0, _ => none
  | fuel + 1, cs =>
    match parseVal fuel cs with
    | none => none
    | some (v, r1) =>
      match skipWs r1 with
      | ',' :: r2 => (parseElems fuel r2).map (fun p => (v :: p.1, p.2))
      | ']' :: r2 => some ([v], r2)
      | _ => none

/-- Comma-separated `"key": value` members followed by the closing brace;
members are returned in source order (duplicates included). -/
def parseMembers : Nat → List Char → Option (List (String × JSON) × List Char)
  | 0, _ => none
  | fuel + 1, cs =>
    match skipWs cs with
    | '"' :: rest =>
      match parseStringBody fuel rest with
      | none => none
      | some (key, r1) =>
        match skipWs r1 with
        | ':' :: r2 =>
          match parseVal fuel r2 with
          | none => none
          | some (v, r3) =>
            match skipWs r3 with
            | ',' :: r4 => (parseMembers fuel r4).map (fun p => ((⟨key⟩, v) :: p.1, p.2))
            | '\x7d' :: r4 => some ([(⟨key⟩, v)], r4)
            | _ => none
        | _ => none
    | _ => none

end

/-- `json.loads` on a character list: one value, then only trailing
whitespace. -/
def jsonParseC (cs : List Char) : Option JSON :=
  match parseVal (cs.length + 1) cs with
  | some (v, rest) => if (skipWs rest).isEmpty then some v else none
  | none => none

/-- `json.loads` on a string. -/
def jsonParse (s : String) : Option JSON := jsonParseC s.data

/-! ## enrichers.py — `_anthropic_web_search` reply parsing

The reply text is scanned with `re.search(r'\x7b.*?\x7d', raw, re.DOTALL)` —
a *lazy* match from the first opening brace to the first closing brace, with
no balancing and no strict parse of the whole reply.  On a parse failure the
blob is repaired by `re.sub(r'(".*?"\s*:\s*)([^"\x7b\[\d\-\s][^,\n\x7d]*)', ...)`
(quote a bare field value) and `re.sub(r',\s*([\x7d\]])', r'\1')` (drop a
trailing comma), and re-parsed; if that fails too, a minimal record is built
from the first URL-looking substring and a truncated excerpt of the reply. -/

/-- The lazy regex `\x7b.*?\x7d` under `re.DOTALL`: from the first opening
brace to the first closing brace after it. -/
def lazyBrace (cs : List Char) : Option (List Char) :=
  match cs.dropWhile (fun c => c ≠ '\x7b') with
  | [] => none
  | b :: rest =>
    match rest.dropWhile (fun c => c ≠ '\x7d') with
    | [] => none
    | cb :: _ => some (b :: (rest.takeWhile (fun c => c ≠ '\x7d') ++ [cb]))

/-- Candidate splittings of `.*?"` inside the key part of the bare-value
regex: every way to read a closing quote, shortest content first (lazy),
with the content not allowed to cross a newline (`.` without `re.DOTALL`). -/
def quoteSplits : List Char → List (List Char × List Char)
  | [] => []
  | c :: rest =>
    if c = '"' then
      ([], rest) :: (quoteSplits rest).map (fun p => (c :: p.1, p.2))
    else if c = '\n' then []
    else (quoteSplits rest).map (fun p => (c :: p.1, p.2))

/-- Consume `\s*:\s*`; returns the consumed characters and the remainder. -/
def colonAfter (cs : List Char) : Option (List Char × List Char) :=
  let ws1 := cs.takeWhile pyWsChar
  match cs.dropWhile pyWsChar with
  | ':' :: r1 => some (ws1 ++ ':' :: r1.takeWhile pyWsChar, r1.dropWhile pyWsChar)
  | _ => none

/-- First character class of the bare value: `[^"\x7b\[\d\-\s]`. -/
def valClassFirst (c : Char) : Bool :=
  !(c = '"' || c = '\x7b' || c = '[' || c.isDigit || c = '-' || pyWsChar c)

/-- Continuation class of the bare value: `[^,\n\x7d]`. -/
def valClassRest (c : Char) : Bool :=
  !(c = ',' || c = '\n' || c = '\x7d')

/-- Try each lazy closing-quote candidate in order; on success return
(group 1, group 2, remainder after the whole match). -/
def kvTryCands :
    List (List Char × List Char) → Option (List Char × List Char × List Char)
  | [] => none
  | (content, afterQ) :: more =>
    match colonAfter afterQ with
    | some (mid, r1) =>
      match r1 with
      | c :: r2 =>
        if valClassFirst c then
          some ('"' :: content ++ '"' :: mid,
                c :: r2.takeWhile valClassRest,
                r2.dropWhile valClassRest)
        else kvTryCands more
      | [] => kvTryCands more
    | none => kvTryCands more

/-- Match of the bare-value regex anchored at the head of `cs`. -/
def kvMatchAt (cs : List Char) : Option (List Char × List Char × List Char) :=
  match cs with
  | '"' :: t => kvTryCands (quoteSplits t)
  | _ => none

/-- Strip Python whitespace from a character list at both ends. -/
def pyStripC (cs : List Char) : List Char :=
  ((cs.dropWhile pyWsChar).reverse.dropWhile pyWsChar).reverse

/-- `re.sub` of the bare-value regex: scan left to right, replace each
non-overlapping match by `group1 + quoted stripped group2`, continue after
the match. -/
def reSubQuotes : Nat → List Char → List Char
  | 0, cs => cs
  | fuel + 1, cs =>
    match cs with
    | [] => []
    | c :: rest =>
      match kvMatchAt cs with
      | some (g1, g2, after) =>
        g1 ++ '"' :: (pyStripC g2 ++ '"' :: reSubQuotes fuel after)
      | none => c :: reSubQuotes fuel rest

/-- `re.sub(r',\s*([\x7d\]])', r'\1')`: drop a comma (and the whitespace)
directly before a closing brace or bracket. -/
def reSubCommas : Nat → List Char → List Char
  | 0, cs => cs
  | fuel + 1, cs =>
    match cs with
    | [] => []
    | c :: rest =>
      if c = ',' then
        match rest.dropWhile pyWsChar with
        | d :: r2 =>
          if d = '\x7d' || d = ']' then d :: reSubCommas fuel r2
          else c :: reSubCommas fuel rest
        | [] => c :: reSubCommas fuel rest
      else c :: reSubCommas fuel rest

/-- The two-pass best-effort repair of a non-parsing blob. -/
def repairBlob (cs : List Char) : List Char :=
  let q := reSubQuotes cs.length cs
  reSubCommas q.length q

/-- Characters allowed inside a URL by `https?://[^\s"\x27\\]+`. -/
def urlChar (c : Char) : Bool :=
  !(pyWsChar c || c = '"' || c = Char.ofNat 39 || c = '\\')

/-- Match of the URL regex anchored at the head of `cs`. -/
def urlAt (cs : List Char) : Option (List Char) :=
  if cs.take 8 = "https://".data then
    let run := (cs.drop 8).takeWhile urlChar
    if run.isEmpty then none else some (cs.take 8 ++ run)
  else if cs.take 7 = "http://".data then
    let run := (cs.drop 7).takeWhile urlChar
    if run.isEmpty then none else some (cs.take 7 ++ run)
  else none

/-- `re.search` of the URL regex: leftmost match. -/
def urlSearchC : List Char → Option (List Char)
  | [] => none
  | c :: rest =>
    match urlAt (c :: rest) with
    | some u => some u
    | none => urlSearchC rest

/-- The degraded record returned when all structured parsing fails:
first URL or the "Unknown" sentinel, and `raw[:300]` with an ellipsis mark
when the reply was truncated. -/
def minimalRecord (raw : List Char) : JSON :=
  .obj [
    ("website", .str (match urlSearchC raw with | some u => ⟨u⟩ | none => "Unknown")),
    ("description",
      .str ⟨raw.take 300 ++ (if raw.length > 300 then [Char.ofNat 8230] else [])⟩),
    ("sector", .str "Unknown"),
    ("hq_location", .str "Unknown"),
    ("key_people", .arr [])]

/-- The staged reply parsing of `_anthropic_web_search` (lines 233–286):
lazy brace extraction (`None` when there is no brace pair), strict parse of
the blob, repaired re-parse, then the minimal record. -/
def parsePipeline (raw : String) : Option JSON :=
  match lazyBrace raw.data with
  | none => none
  | some blob =>
    match jsonParseC blob with
    | some v => some v
    | none =>
      match jsonParseC (repairBlob blob) with
      | some v => some v
      | none => some (minimalRecord raw.data)

/-- `_anthropic_web_search`: `None` when the library or the API key is
missing; otherwise the assistant call (modeled by its outcome `call`, the
joined text of the reply) is made inside `try`, and any exception is caught,
logged and turned into `None`.  The reply text is stripped and parsed with
`parsePipeline`. -/
def anthropicWebSearch (hasLib hasKey : Bool) (call : Except PyErr String) :
    Except PyErr (Option JSON) :=
  if !hasLib || !hasKey then .ok none
  else
    match call with
    | .ok raw => .ok (parsePipeline (pyStrip raw))
    | .error _ => .ok none

/-! Spec-side parser, for comparison with `parsePipeline` (claim C5). -/

/-- Scan for the close of a balanced brace group, at depth `depth`. -/
def balancedGo : Nat → Nat → List Char → Option (List Char)
  | 0, _, _ => none
  | _ + 1, _, [] => none
  | fuel + 1, depth, c :: rest =>
    if c = '\x7b' then (balancedGo fuel (depth + 1) rest).map (c :: ·)
    else if c = '\x7d' then
      if depth = 1 then some [c] else (balancedGo fuel (depth - 1) rest).map (c :: ·)
    else (balancedGo fuel depth rest).map (c :: ·)

/-- The first balanced `\x7b...\x7d` substring, if any. -/
def balancedBrace (cs : List Char) : Option (List Char) :=
  match cs.dropWhile (fun c => c ≠ '\x7b') with
  | [] => none
  | b :: rest => (balancedGo rest.length 1 rest).map (b :: ·)

/-- Follows the wording of the spec (§4.4, full-profile guess): (1) strict
JSON parse of the entire reply; (2) on failure, extract the first *balanced*
brace substring and strict-parse it; (3) on failure, repair and re-parse;
(4) if all structured parsing fails, the minimal record.  Stated only to be
compared against the implementation `parsePipeline`. -/
def specStagedParse (raw : String) : Option JSON :=
  let cs := raw.data
  match jsonParseC cs with
  | some v => some v
  | none =>
    match balancedBrace cs with
    | none => some (minimalRecord cs)
    | some blob =>
      match jsonParseC blob with
      | some v => some v
      | none =>
        match jsonParseC (repairBlob blob) with
        | some v => some v
        | none => some (minimalRecord cs)

/-! ## Python `str()` of a JSON value (used by `str(val)` in
`_wd_first_claim_label` and `str(person["name"])`). -/

/-- A single apostrophe, as a string. -/
def sqs : String := (Char.ofNat 39).toString

mutual

/-- `repr()` of a Python JSON value (strings quoted). -/
def reprPy : JSON → String
  | .null => "None"
  | .bool true => "True"
  | .bool false => "False"
  | .num n => toString n
  | .str s => sqs ++ s ++ sqs
  | .arr xs => "[" ++ strPyList xs ++ "]"
  | .obj fs => "\x7b" ++ strPyFields fs ++ "\x7d"

/-- Comma-joined `repr()`s of list elements. -/
def strPyList : List JSON → String
  | [] => ""
  | [x] => reprPy x
  | x :: y :: rest => reprPy x ++ ", " ++ strPyList (y :: rest)

/-- Comma-joined `repr()`s of dict items. -/
def strPyFields : List (String × JSON) → String
  | [] => ""
  | [(k, v)] => sqs ++ k ++ sqs ++ ": " ++ reprPy v
  | (k, v) :: y :: rest =>
    sqs ++ k ++ sqs ++ ": " ++ reprPy v ++ ", " ++ strPyFields (y :: rest)

end

/-- Python `str(v)` (like `repr()` except that a top-level string is
returned unquoted). -/
def strPy : JSON → String
  | .null => "None"
  | .bool true => "True"
  | .bool false => "False"
  | .num n => toString n
  | .str s => s
  | .arr xs => "[" ++ strPyList xs ++ "]"
  | .obj fs => "\x7b" ++ strPyFields fs ++ "\x7d"

/-! ## enrichers.py — Wikidata claim helpers -/

/-- `_wd_official_site` (lines 133-141):
`claims["P856"][0]["mainsnak"]["datavalue"]["value"]`, `None` when the
property is absent; a malformed claim raises (unguarded subscripts). -/
def wdOfficialSite (entity : JSON) : Except PyErr (Option JSON) :=
  match jsonGet (jsonGetD entity "claims" (.obj [])) "P856" with
  | none => .ok none
  | some claimList =>
    match claimList with
    | .arr (c0 :: _) =>
      match jsonGet c0 "mainsnak" with
      | none => .error .keyErr
      | some ms =>
        match jsonGet ms "datavalue" with
        | none => .error .keyErr
        | some dv =>
          match jsonGet dv "value" with
          | none => .error .keyErr
          | some v => .ok (some v)
    | .arr [] => .error .indexErr
    | _ => .error .keyErr

/-- `_wd_first_claim_label` (lines 105-129): label of the *first* claim of
`prop`, with one level of linked-entity dereferencing via `entityOf`
(`_wd_entity`).  Linked labels are strings (the function is annotated
`-> Optional[str]`); a non-string label value is modeled as absent. -/
def wdFirstClaimLabel (entityOf : String → Except PyErr JSON) (entity : JSON)
    (prop : String) : Except PyErr (Option String) :=
  match jsonGet (jsonGetD entity "claims" (.obj [])) prop with
  | none => .ok none
  | some claimList =>
    match claimList with
    | .arr (c0 :: _) =>
      match jsonGet c0 "mainsnak" with
      | none => .error .keyErr
      | some snak =>
        match jsonGet snak "datavalue" with
        | some dv =>
          if !pyTruthy dv then .ok none
          else
            match jsonGet dv "value" with
            | none => .error .keyErr
            | some val =>
              match jsonGet val "entity-type" with
              | some (.str "item") =>
                match jsonGet val "numeric-id" with
                | none => .error .keyErr
                | some nid =>
                  match entityOf ("Q" ++ strPy nid) with
                  | .error e => .error e
                  | .ok linked =>
                    match jsonGet (jsonGetD (jsonGetD linked "labels" (.obj []))
                        "en" (.obj [])) "value" with
                    | some (.str s) => .ok (some s)
                    | _ => .ok none
              | _ => .ok (some (strPy val))
        | none => .ok none
    | .arr [] => .error .indexErr
    | _ => .error .keyErr

/-- The key-people loop of `enrich_company` (lines 405-411): for each role
property take the first-claim label, append it when truthy and not already
collected, and break once 3 names are collected. -/
def keyPeopleGo (entityOf : String → Except PyErr JSON) (entity : JSON) :
    List String → List String → Except PyErr (List String)
  | [], acc => .ok acc
  | prop :: props, acc =>
    match wdFirstClaimLabel entityOf entity prop with
    | .error e => .error e
    | .ok labelOpt =>
      let acc2 := match labelOpt with
        | some l => if l ≠ "" ∧ l ∉ acc then acc ++ [l] else acc
        | none => acc
      if acc2.length ≥ 3 then .ok acc2 else keyPeopleGo entityOf entity props acc2

/-- `_wiki_summary` (lines 146-158): `data.get("extract", "")` of the
summary fetch, with only `EnrichmentError` caught and turned into `""`.
The outcome of the inner `_fetch_json` call is the oracle `fetchOutcome`.
Non-string extract values are modeled as `""` (annotated `-> str`). -/
def wikiSummary (fetchOutcome : Except PyErr JSON) : Except PyErr String :=
  match fetchOutcome with
  | .ok data =>
    match jsonGet data "extract" with
    | some (.str s) => .ok s
    | _ => .ok ""
  | .error .enrichmentErr => .ok ""
  | .error e => .error e

/-! ## extractor.py — `_normalize`, duplicate predicates, `extract_companies`

Two source variants exist: `src/volt-parser/extractor.py` (normalized-key /
word-membership policy) and `src/extractor.py` (rapidfuzz ratio ≥ 90).
The NER model is an external collaborator: it is modeled by its output, an
ordered list of (span text, label) pairs. -/

/-- The characters stripped from the tail by `re.sub(r"[',.\s]+$", "", _)`. -/
def punctWs (c : Char) : Bool :=
  c = Char.ofNat 39 || c = ',' || c = '.' || pyWsChar c

/-- Lowercase a string per character (`str.lower`, adequate for ASCII). -/
def lowerStr (s : String) : String := ⟨s.data.map Char.toLower⟩

/-- Python `str.replace`: replace every non-overlapping leftmost occurrence
of `pat` (non-empty) by `rep`. -/
def replaceSeq (pat rep : List Char) : Nat → List Char → List Char
  | 0, cs => cs
  | _ + 1, [] => []
  | fuel + 1, c :: rest =>
    if (c :: rest).take pat.length = pat then
      rep ++ replaceSeq pat rep fuel ((c :: rest).drop pat.length)
    else c :: replaceSeq pat rep fuel rest

/-- `str.replace` on strings. -/
def replacePy (s pat rep : String) : String :=
  ⟨replaceSeq pat.data rep.data s.data.length s.data⟩

/-- `_normalize` (volt-parser/extractor.py lines 14-17): mojibake
right-quote repair, lowercase, strip one trailing punctuation/whitespace
run, then strip whitespace. -/
def normalizeName (name : String) : String :=
  let n1 := replacePy name "â€™" sqs
  let low := lowerStr n1
  pyStrip ⟨(low.data.reverse.dropWhile punctWs).reverse⟩

/-- Python `str.split()`: whitespace-run split, no empty pieces. -/
def splitWs (s : String) : List String :=
  (s.split (fun c => pyWsChar c)).filter (· ≠ "")

/-- Loop body of the normalized-key `_is_duplicate`: equal normalized keys,
or either normalized key a whole word of the other. -/
def dupTestNorm (name ex : String) : Bool :=
  let norm := normalizeName name
  let exNorm := normalizeName ex
  norm == exNorm || (splitWs exNorm).contains norm || (splitWs norm).contains exNorm

/-- `_is_duplicate` of the normalized-key variant (volt-parser/extractor.py
lines 19-28). -/
def isDupNorm (name : String) (acc : List String) : Bool :=
  acc.any (dupTestNorm name)

/-- Longest common subsequence length (for the rapidfuzz Indel ratio). -/
def lcsLen : List Char → List Char → Nat
  | [], _ => 0
  | _, [] => 0
  | a :: xs, b :: ys =>
    if a = b then lcsLen xs ys + 1
    else max (lcsLen (a :: xs) ys) (lcsLen xs (b :: ys))
termination_by xs ys => xs.length + ys.length

/-- `fuzz.ratio(a, b) >= 90` with exact rational arithmetic: the Indel
ratio is `200·lcs/(|a|+|b|)` (and 100 for two empty strings), so the test
is `20·lcs ≥ 9·(|a|+|b|)`. -/
def ratioGE90 (a b : String) : Bool :=
  decide (20 * lcsLen a.data b.data ≥ 9 * (a.length + b.length))

/-- Loop body of the fuzzy `_is_duplicate`: rapidfuzz ratio of the
lowercased pair at or above the 90 threshold. -/
def dupTestFuzzy (name ex : String) : Bool :=
  ratioGE90 (lowerStr name) (lowerStr ex)

/-- `_is_duplicate` of the fuzzy variant (src/extractor.py lines 31-32). -/
def isDupFuzzy (name : String) (acc : List String) : Bool :=
  acc.any (dupTestFuzzy name)

/-- The candidate loop shared by both `extract_companies` variants: each
entity span labeled ORG is trimmed and appended unless the duplicate
predicate accepts it against the names collected so far. -/
def extractGo (isDup : String → List String → Bool) :
    List (String × String) → List String → List String
  | [], acc => acc
  | (txt, lbl) :: rest, acc =>
    if lbl = "ORG" then
      let c := pyStrip txt
      if isDup c acc then extractGo isDup rest acc
      else extractGo isDup rest (acc ++ [c])
    else extractGo isDup rest acc

/-- `extract_companies`, fuzzy variant (src/extractor.py). -/
def extractCompaniesFuzzy (ents : List (String × String)) : List String :=
  extractGo isDupFuzzy ents []

/-- `extract_companies`, normalized-key variant (src/volt-parser/extractor.py). -/
def extractCompaniesNorm (ents : List (String × String)) : List String :=
  extractGo isDupNorm ents []

/-! ## enrichers.py — `enrich_company` and cli.py — `_gather` -/

/-- A Wikidata search hit (`data["search"][0]`): the fields read by
`enrich_company` (`hit["id"]`, `hit["label"]`, `hit.get("description", "")`). -/
structure Hit where
  id : String
  label : String
  description : Option String

/-- Oracles giving the awaited outcome of each remote call made by one
`enrich_company` run: the Wikidata search, entity fetches by id, the
Wikipedia summary fetch, and the Anthropic configuration and call. -/
structure Env where
  search : Except PyErr (Option Hit)
  entityOf : String → Except PyErr JSON
  summaryFetch : Except PyErr JSON
  hasLib : Bool
  hasKey : Bool
  llmReply : Except PyErr String

/-- The profile dict returned by `enrich_company`.  Fields that Python may
fill with arbitrary JSON (the fallback dict values, the website claim) are
JSON-typed; the others are strings by construction. -/
structure Profile where
  name : String
  aliases : List String
  website : JSON
  sector : JSON
  hq_location : JSON
  description : JSON
  key_people : List String
  competitors : List String
  sources : List (String × String)

/-- Key people of the no-hit fallback profile (lines 324-330): up to the
first 3 entries of `web_data["key_people"]`, dict entries contributing
`str(person["name"])` when the key is present, string entries stripped. -/
def fallbackKeyPeople (webData : JSON) : List String :=
  match jsonGet webData "key_people" with
  | some (.arr persons) =>
    (persons.take 3).foldl (fun acc person =>
      match person with
      | .obj _ =>
        match jsonGet person "name" with
        | some nv => acc ++ [strPy nv]
        | none => acc
      | .str s => acc ++ [pyStrip s]
      | _ => acc) []
  | _ => []

/-- The profile synthesized from fallback data when Wikidata had no hit
(lines 333-353). -/
def fallbackProfile (name : String) (webData : JSON) : Profile :=
  { name := name
    aliases := []
    website := jsonGetD webData "website" (.str "Unknown")
    sector := jsonGetD webData "sector" (.str "Unknown")
    hq_location := jsonGetD webData "hq_location" (.str "Unknown")
    description := jsonGetD webData "description" (.str "(found via web search)")
    key_people := fallbackKeyPeople webData
    competitors := []
    sources := [("anthropic_web_search", "Anthropic Web Search Tool")] }

/-- The canonical knowledge-base page for an entity id. -/
def wdUrl (qid : String) : String := "https://www.wikidata.org/wiki/" ++ qid

/-- UTF-8 bytes of a character. -/
def utf8Bytes (c : Char) : List Nat :=
  let n := c.toNat
  if n < 128 then [n]
  else if n < 2048 then [192 + n / 64, 128 + n % 64]
  else if n < 65536 then [224 + n / 4096, 128 + (n / 64) % 64, 128 + n % 64]
  else [240 + n / 262144, 128 + (n / 4096) % 64, 128 + (n / 64) % 64, 128 + n % 64]

/-- Uppercase hex digit. -/
def hexDigit (n : Nat) : Char :=
  if n < 10 then Char.ofNat (48 + n) else Char.ofNat (55 + n)

/-- `urllib.parse.quote_plus`. -/
def quotePlus (s : String) : String :=
  ⟨s.data.foldl (fun acc c =>
    if c = ' ' then acc ++ ['+']
    else if c.isAlphanum || c = '_' || c = '.' || c = '-' || c = '~' then acc ++ [c]
    else acc ++ (utf8Bytes c).foldl
      (fun a b => a ++ ['%', hexDigit (b / 16), hexDigit (b % 16)]) []) []⟩

/-- The Wikipedia provenance URL recorded in `sources`. -/
def wikiUrlOf (canonical : String) : String :=
  "https://en.wikipedia.org/wiki/" ++ quotePlus (replacePy canonical " " "_")

/-- `web_data.get("website") != "Unknown"` (Python `!=` against a string:
a missing key compares as `None != "Unknown"`, hence true). -/
def websiteNotUnknown (o : Option JSON) : Bool :=
  match o with
  | some (.str s) => s != "Unknown"
  | _ => true

/-- `if not website`: the current optional website value is absent or falsy. -/
def websiteMissing (o : Option JSON) : Bool :=
  match o with
  | some w => !pyTruthy w
  | none => true

/-- `x or "Unknown"` on an optional claim label. -/
def pyOrUnknown (o : Option String) : String :=
  match o with
  | some s => if s = "" then "Unknown" else s
  | none => "Unknown"

/-- The found-entity path of `enrich_company` (lines 366-445): entity fetch,
summary-or-hit description, official site, the use_llm website fill-in
(line 389: `if web_data and web_data.get("website") != "Unknown"` — the
record must be truthy, so a falsy `{}` is skipped like `None`), website
default, sector/HQ first-claim labels, key people, profile record. -/
def enrichFound (env : Env) (name : String) (useLlm : Bool) (hit : Hit) :
    Except PyErr Profile :=
  match env.entityOf hit.id with
  | .error e => .error e
  | .ok entity =>
    match wikiSummary env.summaryFetch with
    | .error e => .error e
    | .ok summ =>
      let description : String := if summ ≠ "" then summ else hit.description.getD ""
      match wdOfficialSite entity with
      | .error e => .error e
      | .ok website0 =>
        let step : Except PyErr (Option JSON) :=
          if websiteMissing website0 && useLlm then
            match anthropicWebSearch env.hasLib env.hasKey env.llmReply with
            | .error e => .error e
            | .ok none => .ok website0
            | .ok (some webData) =>
              if pyTruthy webData &&
                  websiteNotUnknown (jsonGet webData "website") then
                match jsonGet webData "website" with
                | some w => .ok (some w)
                | none => .error .keyErr
              else .ok website0
          else .ok website0
        match step with
        | .error e => .error e
        | .ok website1 =>
          let website2 : JSON :=
            match website1 with
            | some w => if pyTruthy w then w else .str (wdUrl hit.id)
            | none => .str (wdUrl hit.id)
          match wdFirstClaimLabel env.entityOf entity "P452" with
          | .error e => .error e
          | .ok sectorOpt =>
            match wdFirstClaimLabel env.entityOf entity "P159" with
            | .error e => .error e
            | .ok hqOpt =>
              match keyPeopleGo env.entityOf entity ["P1037", "P112"] [] with
              | .error e => .error e
              | .ok people =>
                .ok {
                  name := hit.label
                  aliases :=
                    if normalizeName name ≠ normalizeName hit.label then [name] else []
                  website := website2
                  sector := .str (pyOrUnknown sectorOpt)
                  hq_location := .str (pyOrUnknown hqOpt)
                  description := .str description
                  key_people := people
                  competitors := []
                  sources := [("wikidata", wdUrl hit.id),
                              ("wikipedia", wikiUrlOf hit.label)] }

/-- `enrich_company` (lines 298-445): search, then either the no-hit branch
(line 319: `if web_data:` — a truthy fallback record synthesizes a profile,
while `None` *or a falsy `{}`* falls through to `EnrichmentError`) or the
found-entity path. -/
def enrichCompany (env : Env) (name : String) (useLlm : Bool) :
    Except PyErr Profile :=
  match env.search with
  | .error e => .error e
  | .ok none =>
    if useLlm then
      match anthropicWebSearch env.hasLib env.hasKey env.llmReply with
      | .error e => .error e
      | .ok (some webData) =>
        if pyTruthy webData then .ok (fallbackProfile name webData)
        else .error .enrichmentErr
      | .ok none => .error .enrichmentErr
    else .error .enrichmentErr
  | .ok (some hit) => enrichFound env name useLlm hit

/-- cli.py `_gather` (lines 66-76): one task per extracted name, awaited in
task-creation order (which is the extraction order); `EnrichmentError`
skips that name, any other exception aborts the batch.  Each concurrent
task is modeled by the per-name outcome function `enrich`: a task's result
does not depend on when its siblings complete. -/
def gatherM (enrich : String → Except PyErr Profile) :
    List String → Except PyErr (List Profile)
  | [] => .ok []
  | n :: rest =>
    match enrich n with
    | .ok p =>
      match gatherM enrich rest with
      | .ok ps => .ok (p :: ps)
      | .error e => .error e
    | .error .enrichmentErr => gatherM enrich rest
    | .error e => .error e

/-! Spec-side key-people extraction, for comparison with `keyPeopleGo`
(claim C1). -/

/-- The names carried by *all* claims of one role property (mainsnak →
datavalue → value), string values taken as names.  Linked-entity
dereferencing is elided: the comparison entity of claim C1 carries plain
string values. -/
def specClaimNames (entity : JSON) (prop : String) : List String :=
  match jsonGet (jsonGetD entity "claims" (.obj [])) prop with
  | some (.arr cs) =>
    cs.filterMap (fun c =>
      match jsonGet (jsonGetD (jsonGetD c "mainsnak" (.obj []))
          "datavalue" (.obj [])) "value" with
      | some (.str s) => some s
      | _ => none)
  | _ => []

/-- Follows the wording of the spec (§4.3 step 6): up to 3 people over the
designated role-properties, iterating every claim of each property,
deduplicated by exact name match across roles, each tagged with the role it
was found under, stopping as soon as 3 are collected. -/
def specKeyPeople (entity : JSON) : List (String × String) :=
  [("P1037", "executive"), ("P112", "founder")].foldl
    (fun acc pr =>
      (specClaimNames entity pr.1).foldl
        (fun acc2 n =>
          if acc2.length ≥ 3 || (acc2.map Prod.fst).contains n then acc2
          else acc2 ++ [(n, pr.2)]) acc) []

/-! ## Concrete instances used by witnesses and counterexamples -/

/-- A network that always fails with a transport error. -/
def netTransport : Nat → NetOutcome := fun _ => .transport

/-- A network whose fetched body is always the JSON `null`. -/
def netNull : Nat → NetOutcome := fun _ => .ok .null

/-- A network that always answers 404. -/
def net404 : Nat → NetOutcome := fun _ => .non200 404

/-- A network whose body never decodes. -/
def netBadJson : Nat → NetOutcome := fun _ => .badJson

/-- A network that always returns the JSON string "x". -/
def netStrX : Nat → NetOutcome := fun _ => .ok (.str "x")

/-- The empty fetch state. -/
def st0 : FetchSt := ⟨[], 0, []⟩

/-- An entity record with an empty claims dict. -/
def entityEmpty : JSON := .obj [("claims", .obj [])]

/-- An entity-lookup oracle that always raises (never consulted by the
concrete runs that use it). -/
def eOfErr : String → Except PyErr JSON := fun _ => .error .keyErr

/-- A claim carrying a plain string datavalue. -/
def mkStrClaim (s : String) : JSON :=
  .obj [("mainsnak", .obj [("datavalue", .obj [("value", .str s)])])]

/-- The C1 comparison entity: five eligible people claims (three under the
executive property, two under the founder property), all plain strings. -/
def entityKP : JSON :=
  .obj [("claims", .obj [
    ("P1037", .arr [mkStrClaim "Alice", mkStrClaim "Bob", mkStrClaim "Carol"]),
    ("P112", .arr [mkStrClaim "Dave", mkStrClaim "Eve"])])]

/-- A fixed profile per name, for the C2 example. -/
def profOf (n : String) : Profile := fallbackProfile n (.obj [])

/-- The C2 example batch outcome: "Globex" fails with `EnrichmentError`,
the others succeed. -/
def enrichABC : String → Except PyErr Profile := fun n =>
  if n = "Globex" then .error .enrichmentErr else .ok (profOf n)

/-- Search hit for "IBM". -/
def hitIBM : Hit :=
  ⟨"Q37156", "International Business Machines", some "technology company"⟩

/-- Search hit for "Acme". -/
def hitAcme : Hit := ⟨"Q1", "Acme Corp", some "hit description"⟩

/-- Environment resolving "IBM": claimless entity, summary available, no
fallback. -/
def envIBM : Env :=
  ⟨.ok (some hitIBM), fun _ => .ok entityEmpty,
   .ok (.obj [("extract", .str "IBM is a company.")]), false, false,
   .error .keyErr⟩

/-- C6 counterexample environment: no official-site claim, fallback enabled,
assistant replying a JSON object *without* a "website" key. -/
def envNoSiteNoKey : Env :=
  ⟨.ok (some hitAcme), fun _ => .ok entityEmpty,
   .ok (.obj [("extract", .str "desc")]), true, true,
   .ok "\x7b\"sector\": \"tech\"\x7d"⟩

/-- C6 witness environment: no official-site claim, fallback enabled, the
assistant supplying a website. -/
def envNoSiteGood : Env :=
  ⟨.ok (some hitAcme), fun _ => .ok entityEmpty,
   .ok (.obj [("extract", .str "desc")]), true, true,
   .ok "\x7b\"website\": \"https://acme.example\"\x7d"⟩

/-- C7 failing environment: the summary fetch exhausted its retries and
surfaced `RetryError`; everything else succeeds. -/
def envSummFail : Env :=
  ⟨.ok (some hitAcme), fun _ => .ok entityEmpty, .error .retryErr,
   false, false, .error .keyErr⟩

/-- Website-field projection, to compare parser outcomes. -/
def websiteOf (o : Option JSON) : String :=
  match o with
  | some j =>
    match jsonGet j "website" with
    | some (.str s) => s
    | some _ => "(non-string)"
    | none => "(absent)"
  | none => "(no record)"

/-! # Helper lemmas -/

theorem assocFind_cacheSet (c : List (String × JSON)) (k : String) (v : JSON) :
    assocFind (cacheSet c k v) k = some v := by
  induction c with
  | nil => simp [cacheSet, assocFind]
  | cons hd tl ih =>
    obtain ⟨k2, w⟩ := hd
    by_cases h : k2 = k
    · simp [cacheSet, h, assocFind]
    · simp [cacheSet, h, assocFind, ih]

theorem cacheGet_cacheSet (c : List (String × JSON)) (k : String) (v : JSON)
    (hv : v ≠ .null) :
    cacheGet (cacheSet c k v) k = some v := by
  unfold cacheGet
  rw [assocFind_cacheSet c k v]
  cases v with
  | null => exact absurd rfl hv
  | bool b => rfl
  | num n => rfl
  | str s => rfl
  | arr xs => rfl
  | obj fs => rfl

/-! # Claims -/

/-- C3 counterexample: a fetch that always fails transiently with a
*transport* error is attempted exactly once — `retry_if_exception_type`
matches only `EnrichmentError` (raised for non-200 statuses), so a transport
exception is re-raised without any retry, contradicting "(non-200 or
transport error) … attempted exactly 3 times". -/
theorem c3_transport_not_retried :
    (fetchJson netTransport "u" st0).1 = .error .transportErr ∧
    (fetchJson netTransport "u" st0).2.calls = 1 ∧
    (((1 : Nat) == 3) = false) :=
  ⟨rfl, rfl, rfl⟩

/-- C3 amended: only non-200 responses are retried — exactly 3 attempts with
backoff sleeps [1, 2] (nondecreasing, starting at 1, capped at 8) before the
error surfaces; a malformed-JSON decode error and a transport error both
propagate immediately after a single attempt, with no sleeps. -/
theorem c3_retry_policy (net1 net2 net3 : Nat → NetOutcome) (url : String)
    (s : FetchSt)
    (hmiss : cacheGet s.cache url = none)
    (h1 : ∀ k, ∃ st, net1 k = .non200 st)
    (h2 : net2 s.calls = .badJson)
    (h3 : net3 s.calls = .transport) :
    ((fetchJson net1 url s).1 = .error .retryErr ∧
     (fetchJson net1 url s).2.calls = s.calls + 3 ∧
     (fetchJson net1 url s).2.waits = s.waits ++ [1, 2]) ∧
    ((fetchJson net2 url s).1 = .error .decodeErr ∧
     (fetchJson net2 url s).2.calls = s.calls + 1 ∧
     (fetchJson net2 url s).2.waits = s.waits) ∧
    ((fetchJson net3 url s).1 = .error .transportErr ∧
     (fetchJson net3 url s).2.calls = s.calls + 1 ∧
     (fetchJson net3 url s).2.waits = s.waits) := by
  obtain ⟨a0, e0⟩ := h1 s.calls
  obtain ⟨a1, e1⟩ := h1 (s.calls + 1)
  obtain ⟨a2, e2⟩ := h1 (s.calls + 2)
  refine ⟨⟨?_, ?_, ?_⟩, ⟨?_, ?_, ?_⟩, ⟨?_, ?_, ?_⟩⟩ <;>
    simp [fetchJson, fetchAttempt, hmiss, e0, e1, e2, h2, h3, tenacityWait]

/-- C3 witness: concrete always-404, bad-JSON and transport networks. -/
theorem c3_retry_policy_witness :
    (fetchJson net404 "u" st0).1 = .error .retryErr ∧
    (fetchJson net404 "u" st0).2.calls = 3 ∧
    (fetchJson net404 "u" st0).2.waits = [1, 2] ∧
    (fetchJson netBadJson "u" st0).1 = .error .decodeErr ∧
    (fetchJson netBadJson "u" st0).2.calls = 1 := by
  have h := c3_retry_policy net404 netBadJson netTransport "u" st0 rfl
    (fun k => ⟨404, rfl⟩) rfl rfl
  exact ⟨h.1.1, h.1.2.1, h.1.2.2, h.2.1.1, h.2.1.2.1⟩

/-- C4 counterexample: a URL whose body decodes to the JSON `null` is fetched
again on the second call — the stored `null` comes back from `Cache.get` as
Python `None`, which the walrus test `is not None` treats as a miss — so two
calls issue two network requests, contradicting "at most one network call"
for every URL. -/
theorem c4_null_value_refetched :
    (fetchJson netNull "u" st0).1 = .ok .null ∧
    (fetchJson netNull "u" (fetchJson netNull "u" st0).2).2.calls = 2 ∧
    (decide ((2 : Nat) ≤ 1) = false) :=
  ⟨rfl, rfl, rfl⟩

/-- C4 amended: for every URL whose first fetch succeeds with a *non-null*
JSON body, a second call with the same URL issues no further network call
(regardless of the network's behavior) and returns the cached value, equal
to the first call's result. -/
theorem c4_cache_idempotent (net net2 : Nat → NetOutcome) (url : String)
    (c : List (String × JSON)) (v : JSON)
    (hmiss : cacheGet c url = none) (hv : v ≠ .null) (hnet : net 0 = .ok v) :
    (fetchJson net url ⟨c, 0, []⟩).1 = .ok v ∧
    (fetchJson net url ⟨c, 0, []⟩).2.calls = 1 ∧
    (fetchJson net2 url (fetchJson net url ⟨c, 0, []⟩).2).1 = .ok v ∧
    (fetchJson net2 url (fetchJson net url ⟨c, 0, []⟩).2).2.calls = 1 := by
  have hstep : fetchJson net url ⟨c, 0, []⟩ = (.ok v, ⟨cacheSet c url v, 1, []⟩) := by
    simp [fetchJson, fetchAttempt, hmiss, hnet]
  have hhit : fetchJson net2 url ⟨cacheSet c url v, 1, []⟩ =
      (.ok v, ⟨cacheSet c url v, 1, []⟩) := by
    simp [fetchJson, fetchAttempt, cacheGet_cacheSet c url v hv]
  rw [hstep, hhit]
  exact ⟨rfl, rfl, rfl, rfl⟩

/-- C4 witness: a first fetch of the string "x", then a second call over a
network that would fail — the cache hit never consults it. -/
theorem c4_cache_idempotent_witness :
    (fetchJson netStrX "u" st0).1 = .ok (.str "x") ∧
    (fetchJson netStrX "u" st0).2.calls = 1 ∧
    (fetchJson netTransport "u" (fetchJson netStrX "u" st0).2).1 = .ok (.str "x") ∧
    (fetchJson netTransport "u" (fetchJson netStrX "u" st0).2).2.calls = 1 :=
  c4_cache_idempotent netStrX netTransport "u" [] (.str "x") rfl
    (fun hh => JSON.noConfusion hh) rfl

/-- C7: the summary-fetch fallback never fires.  `_fetch_json` can only
surface `RetryError` (or a non-retried exception), never a bare
`EnrichmentError`, so `_wiki_summary`'s `except EnrichmentError` clause is
dead code: a summary fetch whose retries are exhausted propagates
`RetryError` out of `enrich_company` instead of falling back to the hit
description. -/
theorem c7_summary_error_not_caught :
    (∀ net url s, surfacesEnrichmentErr (fetchJson net url s).1 = false) ∧
    (fetchJson net404 "summary" st0).1 = .error .retryErr ∧
    wikiSummary (.error .retryErr) = .error .retryErr ∧
    wikiSummary (.error .enrichmentErr) = .ok "" ∧
    enrichCompany envSummFail "Acme" false = .error .retryErr := by
  refine ⟨?_, rfl, rfl, rfl, rfl⟩
  intro net url s
  unfold fetchJson
  cases hA : fetchAttempt net url s with
  | mk r1 s1 =>
    cases r1 with
    | ok v => simp [surfacesEnrichmentErr]
    | error e =>
      cases e <;> (simp only [surfacesEnrichmentErr]; try rfl)
      cases hB : fetchAttempt net url { s1 with waits := s1.waits ++ [tenacityWait 1] } with
      | mk r2 s2 =>
        cases r2 with
        | ok v => simp [surfacesEnrichmentErr]
        | error e2 =>
          cases e2 <;> (simp only [surfacesEnrichmentErr]; try rfl)
          cases hC : fetchAttempt net url { s2 with waits := s2.waits ++ [tenacityWait 2] } with
          | mk r3 s3 =>
            cases r3 with
            | ok v => simp [surfacesEnrichmentErr]
            | error e3 => cases e3 <;> rfl

/-- C8: failures of the assistant/search call never propagate out of
`_anthropic_web_search`: for every configuration the function returns
normally, and an exception during the call yields the no-data result
`None`. -/
theorem c8_fallback_never_raises (hasLib hasKey : Bool)
    (call : Except PyErr String) (e : PyErr) :
    (anthropicWebSearch hasLib hasKey call).isOk = true ∧
    anthropicWebSearch hasLib hasKey (.error e) = .ok none := by
  constructor
  · unfold anthropicWebSearch
    cases hasLib <;> cases hasKey <;> cases call <;> rfl
  · unfold anthropicWebSearch
    cases hasLib <;> cases hasKey <;> rfl

/-- C2: the batch output equals, in extraction order, exactly the profiles
of the names whose enrichment succeeded, provided every failure is an
`EnrichmentError` (the only exception `_gather` tolerates); a failing name
is omitted without affecting its siblings. -/
theorem c2_order_preserved (enrich : String → Except PyErr Profile)
    (names : List String)
    (h : ∀ n ∈ names, ∀ e, enrich n = .error e → e = .enrichmentErr) :
    gatherM enrich names = .ok (names.filterMap (fun n => (enrich n).toOption)) := by
  induction names with
  | nil => simp [gatherM]
  | cons n rest ih =>
    have hrest : ∀ m ∈ rest, ∀ e, enrich m = .error e → e = .enrichmentErr :=
      fun m hm => h m (by simp [hm])
    cases he : enrich n with
    | ok p => simp [gatherM, he, ih hrest, Except.toOption]
    | error e =>
      have hee : e = .enrichmentErr := h n (by simp) e he
      subst hee
      simp [gatherM, he, ih hrest, Except.toOption]

/-- C2 witness: the batch ["Acme", "Globex", "Initech"] with "Globex"
failing yields [profile Acme, profile Initech] in that order. -/
theorem c2_order_preserved_witness :
    gatherM enrichABC ["Acme", "Globex", "Initech"] =
      .ok [profOf "Acme", profOf "Initech"] := by
  have h := c2_order_preserved enrichABC ["Acme", "Globex", "Initech"] ?_
  · exact h.trans (by rfl)
  · intro n hn e he
    simp only [List.mem_cons, List.mem_singleton] at hn
    rcases hn with rfl | rfl | rfl | hn
    · simp [enrichABC] at he
    · simp [enrichABC] at he
      exact he.symm
    · simp [enrichABC] at he
    · simp at hn

/-- Behavior of the key-people loop over any property list: at most one name
per property, no duplicates, every name the first-claim label of one of the
properties. -/
theorem keyPeopleGo_spec (entityOf : String → Except PyErr JSON) (entity : JSON) :
    ∀ (props : List String) (acc ps : List String),
    keyPeopleGo entityOf entity props acc = .ok ps →
    ps.length ≤ acc.length + props.length ∧
    (acc.Nodup → ps.Nodup) ∧
    (∀ x ∈ ps, x ∈ acc ∨
      ∃ p ∈ props, wdFirstClaimLabel entityOf entity p = .ok (some x)) := by
  intro props
  induction props with
  | nil =>
    intro acc ps h
    simp only [keyPeopleGo, Except.ok.injEq] at h
    subst h
    exact ⟨by simp, fun hn => hn, fun x hx => .inl hx⟩
  | cons prop rest ih =>
    intro acc ps h
    rw [keyPeopleGo] at h
    cases hL : wdFirstClaimLabel entityOf entity prop with
    | error e => rw [hL] at h; exact absurd h (by simp)
    | ok lo =>
      rw [hL] at h
      have hstep : ∀ acc2 : List String,
          (acc2 = acc ∨ ∃ l, lo = some l ∧ l ∉ acc ∧ acc2 = acc ++ [l]) →
          (if acc2.length ≥ 3 then Except.ok acc2
           else keyPeopleGo entityOf entity rest acc2) = .ok ps →
          ps.length ≤ acc.length + (prop :: rest).length ∧
          (acc.Nodup → ps.Nodup) ∧
          (∀ x ∈ ps, x ∈ acc ∨
            ∃ p ∈ prop :: rest,
              wdFirstClaimLabel entityOf entity p = .ok (some x)) := by
        intro acc2 hacc2 h2
        have hlen2 : acc2.length ≤ acc.length + 1 := by
          rcases hacc2 with rfl | ⟨l, _, _, rfl⟩ <;> simp
        have hnd2 : acc.Nodup → acc2.Nodup := by
          rcases hacc2 with rfl | ⟨l, _, hnin, rfl⟩
          · exact fun hn => hn
          · intro hn; simp [List.nodup_append, hn, hnin]
        have hmem2 : ∀ x ∈ acc2, x ∈ acc ∨
            wdFirstClaimLabel entityOf entity prop = .ok (some x) := by
          rcases hacc2 with rfl | ⟨l, hlo, _, rfl⟩
          · exact fun x hx => .inl hx
          · intro x hx
            rcases List.mem_append.mp hx with hx | hx
            · exact .inl hx
            · simp only [List.mem_singleton] at hx
              subst hx
              subst hlo
              exact .inr hL
        by_cases h3 : acc2.length ≥ 3
        · rw [if_pos h3] at h2
          injection h2 with h2
          subst h2
          refine ⟨by simp only [List.length_cons]; omega, hnd2, ?_⟩
          intro x hx
          rcases hmem2 x hx with hx | hx
          · exact .inl hx
          · exact .inr ⟨prop, by simp, hx⟩
        · rw [if_neg h3] at h2
          obtain ⟨l1, l2, l3⟩ := ih acc2 ps h2
          refine ⟨by simp only [List.length_cons] at l1 ⊢; omega,
            fun hn => l2 (hnd2 hn), ?_⟩
          intro x hx
          rcases l3 x hx with hx | ⟨p, hp, hlab⟩
          · rcases hmem2 x hx with hx | hx
            · exact .inl hx
            · exact .inr ⟨prop, by simp, hx⟩
          · exact .inr ⟨p, by simp [hp], hlab⟩
      cases lo with
      | none => exact hstep acc (.inl rfl) h
      | some l =>
        by_cases hc : l ≠ "" ∧ l ∉ acc
        · refine hstep (acc ++ [l]) (.inr ⟨l, rfl, hc.2, rfl⟩) ?_
          simpa [hc] using h
        · refine hstep acc (.inl rfl) ?_
          simpa [hc] using h

/-- C1 counterexample: an entity holding five eligible people claims (three
executives, two founders).  The code takes only the *first* claim of each
role property, returning the two untagged names ["Alice", "Dave"], while the
spec-side extraction collects three role-tagged people — so the profile does
not stop at 3 collected people and carries no role tags. -/
theorem c1_first_claim_only :
    keyPeopleGo eOfErr entityKP ["P1037", "P112"] [] = .ok ["Alice", "Dave"] ∧
    specKeyPeople entityKP =
      [("Alice", "executive"), ("Bob", "executive"), ("Carol", "executive")] ∧
    (specKeyPeople entityKP).length = 3 ∧
    ((["Alice", "Dave"] : List String) == ["Alice", "Bob", "Carol"]) = false :=
  ⟨rfl, rfl, rfl, by decide⟩

/-- C1 amended: the key-people list holds at most one person per designated
role property — the first-claim label of "executive" (P1037) then "founder"
(P112) — hence at most 2 plain-string names (the 3-cap break is never
reached), in property order, deduplicated by exact name match. -/
theorem c1_key_people (entityOf : String → Except PyErr JSON) (entity : JSON)
    (ps : List String)
    (h : keyPeopleGo entityOf entity ["P1037", "P112"] [] = .ok ps) :
    ps.length ≤ 2 ∧ ps.Nodup ∧
    ∀ x ∈ ps, wdFirstClaimLabel entityOf entity "P1037" = .ok (some x) ∨
              wdFirstClaimLabel entityOf entity "P112" = .ok (some x) := by
  obtain ⟨h1, h2, h3⟩ := keyPeopleGo_spec entityOf entity ["P1037", "P112"] [] ps h
  refine ⟨by simpa using h1, h2 (by simp), ?_⟩
  intro x hx
  rcases h3 x hx with hx0 | ⟨p, hp, hlab⟩
  · simp at hx0
  · simp only [List.mem_cons, List.not_mem_nil, or_false] at hp
    rcases hp with rfl | rfl
    · exact .inl hlab
    · exact .inr hlab

/-- C1 witness: the loop on the five-claim entity returns two names,
within the cap and duplicate-free. -/
theorem c1_key_people_witness :
    keyPeopleGo eOfErr entityKP ["P1037", "P112"] [] = .ok ["Alice", "Dave"] ∧
    (["Alice", "Dave"] : List String).length ≤ 2 ∧
    (["Alice", "Dave"] : List String).Nodup :=
  ⟨rfl, (c1_key_people eOfErr entityKP ["Alice", "Dave"] rfl).1,
    (c1_key_people eOfErr entityKP ["Alice", "Dave"] rfl).2.1⟩

/-- C9: whenever `enrich_company` returns a profile for a name the primary
resolver matched to a hit, the aliases list is `[name]` exactly when the
normalized input differs from the normalized canonical label, else empty. -/
theorem c9_alias_rule (env : Env) (name : String) (useLlm : Bool) (hit : Hit)
    (p : Profile)
    (hs : env.search = .ok (some hit))
    (hp : enrichCompany env name useLlm = .ok p) :
    p.aliases =
      if normalizeName name ≠ normalizeName hit.label then [name] else [] := by
  unfold enrichCompany at hp
  rw [hs] at hp
  dsimp only at hp
  unfold enrichFound at hp
  cases he : env.entityOf hit.id with
  | error e => rw [he] at hp; exact Except.noConfusion hp
  | ok entity =>
    rw [he] at hp
    dsimp only at hp
    cases hw : wikiSummary env.summaryFetch with
    | error e => rw [hw] at hp; exact Except.noConfusion hp
    | ok summ =>
      rw [hw] at hp
      dsimp only at hp
      cases hoff : wdOfficialSite entity with
      | error e => rw [hoff] at hp; exact Except.noConfusion hp
      | ok website0 =>
        rw [hoff] at hp
        dsimp only at hp
        split at hp
        · exact Except.noConfusion hp
        · cases hsec : wdFirstClaimLabel env.entityOf entity "P452" with
          | error e => rw [hsec] at hp; exact Except.noConfusion hp
          | ok sectorOpt =>
            rw [hsec] at hp
            dsimp only at hp
            cases hhq : wdFirstClaimLabel env.entityOf entity "P159" with
            | error e => rw [hhq] at hp; exact Except.noConfusion hp
            | ok hqOpt =>
              rw [hhq] at hp
              dsimp only at hp
              cases hkp : keyPeopleGo env.entityOf entity ["P1037", "P112"] [] with
              | error e => rw [hkp] at hp; exact Except.noConfusion hp
              | ok people =>
                rw [hkp] at hp
                dsimp only at hp
                injection hp with hp2
                subst hp2
                rfl

/-- C9 witness: "IBM" resolving to canonical "International Business
Machines" yields aliases ["IBM"]. -/
theorem c9_alias_rule_witness :
    ∃ p, enrichCompany envIBM "IBM" false = .ok p ∧ p.aliases = ["IBM"] :=
  ⟨_, rfl, (c9_alias_rule envIBM "IBM" false hitIBM _ rfl rfl).trans
    (if_pos (by decide))⟩

/-- The accepted-names loop keeps only candidates the duplicate predicate
rejected against every earlier accepted name. -/
theorem extractGo_pairwise (isDup : String → List String → Bool)
    (Q : String → String → Prop)
    (hf : ∀ n l, isDup n l = false → ∀ x ∈ l, Q n x) :
    ∀ (ents : List (String × String)) (acc : List String),
    acc.Pairwise (fun a b => Q b a) →
    (extractGo isDup ents acc).Pairwise (fun a b => Q b a) := by
  intro ents
  induction ents with
  | nil => intro acc h; simpa [extractGo] using h
  | cons e rest ih =>
    intro acc h
    obtain ⟨txt, lbl⟩ := e
    by_cases hl : lbl = "ORG"
    · cases hdup : isDup (pyStrip txt) acc with
      | true => simpa [extractGo, hl, hdup] using ih acc h
      | false =>
        have hnew : (acc ++ [pyStrip txt]).Pairwise (fun a b => Q b a) := by
          rw [List.pairwise_append]
          refine ⟨h, by simp, ?_⟩
          intro a ha b hb
          simp only [List.mem_singleton] at hb
          subst hb
          exact hf _ _ hdup a ha
        simpa [extractGo, hl, hdup] using ih _ hnew
    · simpa [extractGo, hl] using ih acc h

/-- The accepted-names loop emits a subsequence of the trimmed ORG spans, in
document order. -/
theorem extractGo_sublist (isDup : String → List String → Bool) :
    ∀ (ents : List (String × String)) (acc : List String),
    (extractGo isDup ents acc).Sublist
      (acc ++ (ents.filter (fun e => e.2 = "ORG")).map (fun e => pyStrip e.1)) := by
  intro ents
  induction ents with
  | nil => intro acc; simp [extractGo]
  | cons e rest ih =>
    intro acc
    obtain ⟨txt, lbl⟩ := e
    by_cases hl : lbl = "ORG"
    · subst hl
      cases hdup : isDup (pyStrip txt) acc with
      | true =>
        have hgoal := (ih acc).trans
          (List.Sublist.append_left (List.sublist_cons_self (pyStrip txt) _) acc)
        simpa [extractGo, hdup] using hgoal
      | false =>
        have hgoal := ih (acc ++ [pyStrip txt])
        simpa [extractGo, hdup, List.append_assoc] using hgoal
    · simpa [extractGo, hl] using ih acc

/-- Any-based duplicate tests: a rejected candidate fails the pair test
against every accepted name. -/
theorem isDupNorm_false (n : String) (l : List String)
    (h : isDupNorm n l = false) : ∀ x ∈ l, dupTestNorm n x = false := by
  simp only [isDupNorm, List.any_eq_false] at h
  intro x hx
  simpa using h x hx

theorem isDupFuzzy_false (n : String) (l : List String)
    (h : isDupFuzzy n l = false) : ∀ x ∈ l, dupTestFuzzy n x = false := by
  simp only [isDupFuzzy, List.any_eq_false] at h
  intro x hx
  simpa using h x hx

theorem dupTestNorm_false_ne (n x : String) (h : dupTestNorm n x = false) :
    (normalizeName x == normalizeName n) = false := by
  simp only [dupTestNorm, Bool.or_eq_false_iff] at h
  have h1 := h.1.1
  simp only [beq_eq_false_iff_ne] at h1 ⊢
  exact fun hh => h1 hh.symm

/-- C10: in both source variants, every name in the `extract_companies`
output was tested false by the module's duplicate predicate against all
previously accepted names — so no later name fuzzy-matches (ratio ≥ 90) an
earlier one, no two names share a normalized key, and the output is a
subsequence of the trimmed ORG spans in document order. -/
theorem c10_dedup_invariant (ents : List (String × String)) :
    (extractCompaniesFuzzy ents).Pairwise (fun a b => dupTestFuzzy b a = false) ∧
    (extractCompaniesNorm ents).Pairwise (fun a b => dupTestNorm b a = false) ∧
    (extractCompaniesNorm ents).Pairwise
      (fun a b => (normalizeName a == normalizeName b) = false) ∧
    (extractCompaniesFuzzy ents).Sublist
      ((ents.filter (fun e => e.2 = "ORG")).map (fun e => pyStrip e.1)) ∧
    (extractCompaniesNorm ents).Sublist
      ((ents.filter (fun e => e.2 = "ORG")).map (fun e => pyStrip e.1)) := by
  have hF := extractGo_pairwise isDupFuzzy (fun a b => dupTestFuzzy a b = false)
    isDupFuzzy_false ents [] (by simp)
  have hN := extractGo_pairwise isDupNorm (fun a b => dupTestNorm a b = false)
    isDupNorm_false ents [] (by simp)
  refine ⟨hF, hN, ?_, extractGo_sublist isDupFuzzy ents [],
    extractGo_sublist isDupNorm ents []⟩
  exact hN.imp (fun h => dupTestNorm_false_ne _ _ h)

/-- C5 counterexample: for the reply `{"a": {"b": 1}}` — a valid JSON object
with one nested level, exactly the shape the assistant is instructed to
return — the spec's staged parser succeeds at stage (1), while the code
never strict-parses the entire reply: its lazy `{.*?}` regex extracts the
unbalanced prefix `{"a": {"b": 1}`, which fails to parse even after repair,
so the code degrades to the minimal record with website "Unknown". -/
theorem c5_lazy_extraction_diverges :
    specStagedParse "\x7b\"a\": \x7b\"b\": 1\x7d\x7d" =
      some (.obj [("a", .obj [("b", .num 1)])]) ∧
    parsePipeline "\x7b\"a\": \x7b\"b\": 1\x7d\x7d" =
      some (minimalRecord ("\x7b\"a\": \x7b\"b\": 1\x7d\x7d").data) ∧
    websiteOf (parsePipeline "\x7b\"a\": \x7b\"b\": 1\x7d\x7d") = "Unknown" ∧
    websiteOf (specStagedParse "\x7b\"a\": \x7b\"b\": 1\x7d\x7d") = "(absent)" ∧
    (("Unknown" == "(absent)") = false) :=
  ⟨rfl, rfl, rfl, rfl, by decide⟩

/-- C5 amended: the reply is parsed in ordered stages, but they are (1)
extract the first lazy first-`{`-to-first-`}` substring — not balanced, and
with no strict parse of the whole reply — returning `None` when no brace
pair exists; (2) strict-parse that substring; (3) on failure, repair (quote
bare values, strip trailing commas) and re-parse; (4) on failure, return the
minimal record: first URL-looking substring or "Unknown", and a ≤300-char
excerpt of the reply, ellipsis-marked when truncated.  The pipeline is a
total function (it never raises). -/
theorem c5_staged_parsing (raw : String) :
    (lazyBrace raw.data = none → parsePipeline raw = none) ∧
    (∀ blob v, lazyBrace raw.data = some blob → jsonParseC blob = some v →
      parsePipeline raw = some v) ∧
    (∀ blob v, lazyBrace raw.data = some blob → jsonParseC blob = none →
      jsonParseC (repairBlob blob) = some v → parsePipeline raw = some v) ∧
    (∀ blob, lazyBrace raw.data = some blob → jsonParseC blob = none →
      jsonParseC (repairBlob blob) = none →
      parsePipeline raw = some (minimalRecord raw.data)) ∧
    (∃ d, jsonGet (minimalRecord raw.data) "description" = some (.str d) ∧
      d.length ≤ 301 ∧ (raw.length ≤ 300 → d = raw)) := by
  refine ⟨?_, ?_, ?_, ?_, ?_⟩
  · intro h; simp [parsePipeline, h]
  · intro blob v h1 h2; simp [parsePipeline, h1, h2]
  · intro blob v h1 h2 h3; simp [parsePipeline, h1, h2, h3]
  · intro blob h1 h2 h3; simp [parsePipeline, h1, h2, h3]
  · refine ⟨⟨raw.data.take 300 ++
      (if raw.data.length > 300 then [Char.ofNat 8230] else [])⟩, rfl, ?_, ?_⟩
    · show (raw.data.take 300 ++
        (if raw.data.length > 300 then [Char.ofNat 8230] else [])).length ≤ 301
      by_cases h : raw.data.length > 300
      · rw [if_pos h]
        simp [List.length_take]
      · rw [if_neg h]
        simp [List.length_take]
        try omega
    · intro hle
      have hdata : raw.data.length ≤ 300 := hle
      show (⟨raw.data.take 300 ++
        (if raw.data.length > 300 then [Char.ofNat 8230] else [])⟩ : String) = raw
      rw [if_neg (by omega : ¬raw.data.length > 300),
        List.take_of_length_le hdata, List.append_nil]

/-- C5 witness: a reply with prose around a flat JSON object parses at
stage (2). -/
theorem c5_staged_parsing_witness :
    parsePipeline "x \x7b\"a\": 1\x7d y" = some (.obj [("a", .num 1)]) :=
  (c5_staged_parsing "x \x7b\"a\": 1\x7d y").2.1 _ _ rfl rfl

/-- C6 counterexample: the primary resolver finds an entity with no
official-website claim, the fallback *returns data* — a truthy JSON object
without a "website" key, so it passes the `if web_data and ...` guard — and
`web_data["website"]` raises `KeyError`, aborting the candidate instead of
filling only the website field (or defaulting it). -/
theorem c6_missing_website_key_raises :
    enrichCompany envNoSiteNoKey "Acme" true = .error .keyErr ∧
    anthropicWebSearch envNoSiteNoKey.hasLib envNoSiteNoKey.hasKey
      envNoSiteNoKey.llmReply = .ok (some (.obj [("sector", .str "tech")])) :=
  ⟨rfl, rfl⟩

/-- C6 amended: when the found entity has no official-website claim and both
runs return profiles, enabling the fallback changes *only* the website
field: when the fallback yields nothing usable — no record, a falsy record
such as `{}` (line 389 tests `web_data and ...`), an "Unknown" website, or a
falsy website value — the website defaults to the canonical knowledge-base
URL, and a truthy fallback website fills the field; every other field is
identical to the fallback-disabled run.  (A *truthy* fallback record whose
"website" key is absent raises `KeyError` instead — see the
counterexample.) -/
theorem c6_website_only_frame (env : Env) (name : String) (hit : Hit)
    (entity : JSON) (summ : String) (sectorOpt hqOpt : Option String)
    (people : List String) (fb : Option JSON) (p q : Profile)
    (hs : env.search = .ok (some hit))
    (he : env.entityOf hit.id = .ok entity)
    (hsm : wikiSummary env.summaryFetch = .ok summ)
    (hoff : wdOfficialSite entity = .ok none)
    (hsec : wdFirstClaimLabel env.entityOf entity "P452" = .ok sectorOpt)
    (hhq : wdFirstClaimLabel env.entityOf entity "P159" = .ok hqOpt)
    (hkp : keyPeopleGo env.entityOf entity ["P1037", "P112"] [] = .ok people)
    (hfb : anthropicWebSearch env.hasLib env.hasKey env.llmReply = .ok fb)
    (hp : enrichCompany env name false = .ok p)
    (hq2 : enrichCompany env name true = .ok q) :
    q.name = p.name ∧ q.aliases = p.aliases ∧ q.sector = p.sector ∧
    q.hq_location = p.hq_location ∧ q.description = p.description ∧
    q.key_people = p.key_people ∧ q.competitors = p.competitors ∧
    q.sources = p.sources ∧
    p.website = .str (wdUrl hit.id) ∧
    (fb = none → q.website = .str (wdUrl hit.id)) ∧
    (∀ webData, fb = some webData →
      (pyTruthy webData = false → q.website = .str (wdUrl hit.id)) ∧
      (websiteNotUnknown (jsonGet webData "website") = false →
        q.website = .str (wdUrl hit.id)) ∧
      (∀ w, jsonGet webData "website" = some w →
        pyTruthy webData = true →
        websiteNotUnknown (jsonGet webData "website") = true →
        q.website = if pyTruthy w then w else .str (wdUrl hit.id))) := by
  simp only [enrichCompany, enrichFound, hs, he, hsm, hoff, hsec, hhq, hkp, hfb,
    websiteMissing, Bool.and_false, Bool.and_true, Bool.false_eq_true,
    if_false, if_true, eq_self_iff_true, Except.ok.injEq] at hp hq2
  subst hp
  cases fb with
  | none =>
    simp only [Except.ok.injEq] at hq2
    subst hq2
    refine ⟨rfl, rfl, rfl, rfl, rfl, rfl, rfl, rfl, rfl, fun _ => rfl, ?_⟩
    intro webData hw
    exact absurd hw (by simp)
  | some webData =>
    dsimp only at hq2
    cases hpt : pyTruthy webData with
    | false =>
      rw [hpt] at hq2
      simp only [Bool.false_and, Bool.false_eq_true, if_false,
        Except.ok.injEq] at hq2
      subst hq2
      refine ⟨rfl, rfl, rfl, rfl, rfl, rfl, rfl, rfl, rfl, by simp, ?_⟩
      intro wd hwd
      injection hwd with hwd
      subst hwd
      refine ⟨fun _ => rfl, fun _ => rfl, ?_⟩
      intro w hw htr hnu2
      rw [hpt] at htr
      exact absurd htr (by simp)
    | true =>
      rw [hpt] at hq2
      simp only [Bool.true_and] at hq2
      cases hnu : websiteNotUnknown (jsonGet webData "website") with
      | false =>
        rw [hnu] at hq2
        simp only [Bool.false_eq_true, if_false, Except.ok.injEq] at hq2
        subst hq2
        refine ⟨rfl, rfl, rfl, rfl, rfl, rfl, rfl, rfl, rfl, by simp, ?_⟩
        intro wd hwd
        injection hwd with hwd
        subst hwd
        refine ⟨fun _ => rfl, fun _ => rfl, ?_⟩
        intro w hw htr hnu2
        rw [hnu] at hnu2
        exact absurd hnu2 (by simp)
      | true =>
        rw [hnu] at hq2
        simp only [if_true] at hq2
        cases hjg : jsonGet webData "website" with
        | none =>
          rw [hjg] at hq2
          exact absurd hq2 (by simp)
        | some w =>
          rw [hjg] at hq2
          simp only [Except.ok.injEq] at hq2
          subst hq2
          refine ⟨rfl, rfl, rfl, rfl, rfl, rfl, rfl, rfl, rfl, by simp, ?_⟩
          intro wd hwd
          injection hwd with hwd
          subst hwd
          refine ⟨?_, ?_, ?_⟩
          · intro hpt2
            rw [hpt] at hpt2
            exact absurd hpt2 (by simp)
          · intro hnu2
            rw [hnu] at hnu2
            exact absurd hnu2 (by simp)
          · intro w2 hw2 _ _
            rw [hjg] at hw2
            injection hw2 with hw2
            subst hw2
            rfl

/-- C6 witness: the assistant supplies a website and only the website field
changes; the fallback-disabled run defaults it to the knowledge-base URL. -/
theorem c6_website_only_frame_witness :
    ∃ p q, enrichCompany envNoSiteGood "Acme" false = .ok p ∧
      enrichCompany envNoSiteGood "Acme" true = .ok q ∧
      p.website = .str (wdUrl "Q1") ∧
      q.website = .str "https://acme.example" ∧
      q.sector = p.sector ∧ q.description = p.description ∧
      q.key_people = p.key_people := by
  obtain ⟨h1, h2, h3, h4, h5, h6, h7, h8, h9, h10, h11⟩ :=
    c6_website_only_frame envNoSiteGood "Acme" hitAcme entityEmpty "desc"
      none none [] (some (.obj [("website", .str "https://acme.example")]))
      _ _ rfl rfl rfl rfl rfl rfl rfl rfl rfl rfl
  refine ⟨_, _, rfl, rfl, h9, ?_, h3, h5, h6⟩
  have hw := (h11 _ rfl).2.2 (.str "https://acme.example") rfl rfl rfl
  exact hw.trans (by rfl)

end Volt
